import Mathlib

/-!
Verification of the SVB_MVP production-dashboard core (app.py, list_tab.py,
stats.py) against its natural-language specification.

The Python helpers are shallowly embedded as executable Lean functions over
`String` / `List Char`.  Unicode normalization (`unicodedata.NFD` + removal of
combining marks, `unidecode`, `str.lower`/`str.upper`) is modelled by explicit
character tables covering the Latin letters that occur in the repository's
business vocabulary; all other characters pass through unchanged, exactly as
the Python pipeline treats them.
-/

namespace SVB

/-- Characters treated as whitespace by Python's `str.strip`. -/
def isSpaceChar (c : Char) : Bool :=
  c = ' ' || c = '\t' || c = '\n' || c = '\r' || c = '\x0b' || c = '\x0c'

/-- Python `str.lower` restricted to the character repertoire of the app
(ASCII plus the precomposed accented Latin letters used in the CSV headers
and status labels). -/
def lowChar (c : Char) : Char :=
  if 'A' ≤ c ∧ c ≤ 'Z' then Char.ofNat (c.toNat + 32)
  else match c with
  | 'Á' => 'á' | 'Â' => 'â' | 'Ã' => 'ã' | 'À' => 'à'
  | 'É' => 'é' | 'Ê' => 'ê'
  | 'Í' => 'í'
  | 'Ó' => 'ó' | 'Ô' => 'ô' | 'Õ' => 'õ'
  | 'Ú' => 'ú' | 'Ü' => 'ü'
  | 'Ç' => 'ç'
  | _ => c

/-- Python `str.upper` on the same repertoire. -/
def upChar (c : Char) : Char :=
  if 'a' ≤ c ∧ c ≤ 'z' then Char.ofNat (c.toNat - 32)
  else match c with
  | 'á' => 'Á' | 'â' => 'Â' | 'ã' => 'Ã' | 'à' => 'À'
  | 'é' => 'É' | 'ê' => 'Ê'
  | 'í' => 'Í'
  | 'ó' => 'Ó' | 'ô' => 'Ô' | 'õ' => 'Õ'
  | 'ú' => 'Ú' | 'ü' => 'Ü'
  | 'ç' => 'Ç'
  | _ => c

/-- Effect of `unicodedata.normalize("NFD", ·)` followed by dropping combining
marks (also the effect of `unidecode`) on a lowercase accented letter. -/
def deacc (c : Char) : Char :=
  match c with
  | 'á' | 'â' | 'ã' | 'à' => 'a'
  | 'é' | 'ê' => 'e'
  | 'í' => 'i'
  | 'ó' | 'ô' | 'õ' => 'o'
  | 'ú' | 'ü' => 'u'
  | 'ç' => 'c'
  | _ => c

/-- Python `str.strip` on a character list. -/
def trimL (l : List Char) : List Char :=
  ((l.dropWhile isSpaceChar).reverse.dropWhile isSpaceChar).reverse

/-- Python `str.strip` on strings. -/
def strTrim (s : String) : String :=
  (trimL s.toList).asString

/-- Python `str.lower` on strings (character table above). -/
def strLower (s : String) : String :=
  (s.toList.map lowChar).asString

/-- Python `str.upper` on strings. -/
def strUpper (s : String) : String :=
  (s.toList.map upChar).asString

/-- Is `c` in `[a-z0-9]`? (the characters kept by the safe-key regex). -/
def isLowerAlnum (c : Char) : Bool :=
  ('a' ≤ c && c ≤ 'z') || ('0' ≤ c && c ≤ '9')

/-- Is `c` an ASCII alphanumeric character (`[A-Za-z0-9]`)? -/
def isAsciiAlnum (c : Char) : Bool :=
  ('a' ≤ c && c ≤ 'z') || ('A' ≤ c && c ≤ 'Z') || ('0' ≤ c && c ≤ '9')

/-- app.py `_normalize_text`: strip, lowercase, NFD-decompose and drop
combining marks.  Empty input maps to the empty string. -/
def _normalize_text (s : String) : String :=
  ((trimL s.toList).map (fun c => deacc (lowChar c))).asString

/-- app.py `norm_key`: `_normalize_text` followed by
`re.sub(r"[^a-z0-9]+", "", ·)`. -/
def norm_key (s : String) : String :=
  (((trimL s.toList).map (fun c => deacc (lowChar c))).filter isLowerAlnum).asString

/-- app.py `is_concluido`: the normalized status text must equal
`"concluido"` (full-text equality, not safe-key equality). -/
def is_concluido (s : String) : Bool :=
  _normalize_text s == "concluido"

/-- list_tab.py `_norm`: `re.sub(r"[^a-z0-9]+", "", unidecode(str(s).strip().lower()))`.
On the modelled character repertoire `unidecode` of a lowered string is the
`deacc ∘ lowChar` table, so the pipeline coincides with `norm_key`. -/
def lt_norm (s : String) : String :=
  (((trimL s.toList).map (fun c => deacc (lowChar c))).filter isLowerAlnum).asString

/-- stats.py `_norm_key`: identical pipeline to app.py `norm_key`
(strip, lower, NFD + drop combining marks, keep `[a-z0-9]`). -/
def stats_norm_key (s : String) : String :=
  (((trimL s.toList).map (fun c => deacc (lowChar c))).filter isLowerAlnum).asString

/-- Values of the `__EP_LIST__` column: the wildcard string `'Todos'` or a
parsed episode number. -/
inductive EpVal where
  | todos : EpVal
  | num : Nat → EpVal
deriving DecidableEq, Repr

/-- Is this entry the wildcard string `'Todos'`
(`isinstance(x, str) and str(x).lower() == 'todos'`)? -/
def EpVal.isTodos : EpVal → Bool
  | .todos => true
  | .num _ => false

/-- Integer payload of an `__EP_LIST__` entry (`isinstance(x, int)`). -/
def EpVal.numOf : EpVal → Option Nat
  | .todos => none
  | .num n => some n

/-- Scanner for `re.findall(r"\d+", s)`: `cur` is the value of the digit run
currently being read (`none` when not inside a run). -/
def digitRunsAux (cur : Option Nat) : List Char → List Nat
  | [] => match cur with | some n => [n] | none => []
  | c :: rest =>
    if c.isDigit then
      digitRunsAux (some (10 * (cur.getD 0) + (c.toNat - 48))) rest
    else match cur with
      | some n => n :: digitRunsAux none rest
      | none => digitRunsAux none rest

/-- `re.findall(r"\d+", s)` as integers: every maximal run of decimal digits,
in order of appearance, duplicates kept. -/
def digitRuns (l : List Char) : List Nat :=
  digitRunsAux none l

/-- app.py `parse_episode_field`: `[]` for empty/whitespace-only text,
`['Todos']` when the stripped text lowercases to `"todos"`, otherwise all
maximal digit runs as integers. -/
def parse_episode_field (s : String) : List EpVal :=
  let t := strTrim s
  if t = "" then []
  else if strLower t = "todos" then [EpVal.todos]
  else (digitRuns t.toList).map EpVal.num

/-! Internal canonical column names (app.py `COL_*` constants). -/

def COL_EP : String := "Episódio"
def COL_NAME : String := "Nome do perosnagem"
def COL_FILE_ID : String := "ID do Arquivo"
def COL_RIG_LINK : String := "Link para baixar o modelo Rigado"
def COL_SYNCSKETCH : String := "Link do SyncSketch"
def COL_CONCEPT_LINK : String := "Link para baixar o modelo Ceoncept vetorizado"
def COL_URG_CONCEPT : String := "URGÊNCIA"
def COL_STATUS_CONCEPT : String := "Status do Concept"
def COL_RESP_CONCEPT : String := "Responsável"
def COL_URG_RIG : String := "URGÊNCIA.1"
def COL_STATUS_RIG : String := "Status do Rig"
def COL_RESP_RIG : String := "Respondável"
def COL_COMMENTS : String := "COMENTÁRIOS"
def COL_DATE_CONCEPT : String := "Entrega Concept"
def COL_DATE_RIG : String := "Entrega Rig"

/-- app.py `_rename_headers_for_schema`, per column: strip a trailing `".1"`
suffix marker, normalize the base to a safe key, and look the key up in the
fixed synonym table; the unsuffixed responsible/delivery headers map to the
Rig slot and the suffixed ones to the Concept slot.  Unmapped headers pass
through unchanged. -/
def renameHeader (raw : String) : String :=
  let cs := raw.toList
  let hasSuffix := (match cs.reverse with | '1' :: '.' :: _ => true | _ => false)
  let base := if hasSuffix then (cs.take (cs.length - 2)).asString else raw
  let nk := norm_key base
  if nk ∈ ["episodio", "episodios", "eps"] then COL_EP
  else if nk ∈ ["nome", "nomedoperosnagem", "nomepersonagem", "nomedopersonagem"] then COL_NAME
  else if nk ∈ ["id", "iddoarquivo"] then COL_FILE_ID
  else if nk ∈ ["linkrig", "linkdorig", "linkparabaixaromodelorigado"] then COL_RIG_LINK
  else if nk ∈ ["syncsketch"] then COL_SYNCSKETCH
  else if nk ∈ ["linksconcept", "linkconcept", "linkdoconcept", "linkparabaixaromodeloceonceptvetorizado"] then COL_CONCEPT_LINK
  else if nk ∈ ["statusrig"] then COL_STATUS_RIG
  else if nk ∈ ["statusconcept", "vetorizacao"] then COL_STATUS_CONCEPT
  else if nk ∈ ["modelsheet"] then raw
  else if nk ∈ ["responsavel", "respondavel"] then
    (if hasSuffix then COL_RESP_CONCEPT else COL_RESP_RIG)
  else if nk ∈ ["entrega"] then
    (if hasSuffix then COL_DATE_CONCEPT else COL_DATE_RIG)
  else if nk ∈ ["comentarios", "comentario"] then COL_COMMENTS
  else raw

/-- Effect of app.py `_rename_headers_for_schema` on the ordered list of
column headers (`df.rename(columns=ren)` relabels each column in place). -/
def _rename_headers_for_schema (cols : List String) : List String :=
  cols.map renameHeader

/-! list_tab.py id-token machinery: the regex
`\b(?:SVB|RIG|PER)_([A-Za-z0-9]+)\b` (IGNORECASE). -/

/-- Word character for the regex metacharacter `\b`
(`[A-Za-z0-9_]` plus the accented letters, which Python's Unicode `\w`
also counts as word characters). -/
def wordChar (c : Char) : Bool :=
  isAsciiAlnum c || c = '_' || deacc (lowChar c) ≠ lowChar c

/-- Attempted match of `(?:SVB|RIG|PER)_([A-Za-z0-9]+)\b` (IGNORECASE) at the
head of `l`; returns the captured group on success.  The greedy group takes
the maximal ASCII-alphanumeric run, so the trailing `\b` fails exactly when
the run is followed by an underscore or another word character. -/
def svbTryAt (l : List Char) : Option (List Char) :=
  match l with
  | a :: b :: c :: d :: rest =>
    let p3 := [lowChar a, lowChar b, lowChar c]
    if (p3 = ['s', 'v', 'b'] || p3 = ['r', 'i', 'g'] || p3 = ['p', 'e', 'r']) && d = '_' then
      let grp := rest.takeWhile isAsciiAlnum
      let boundaryAfter : Bool :=
        match rest.drop grp.length with
        | [] => true
        | x :: _ => ! wordChar x
      if grp ≠ [] && boundaryAfter then some grp else none
    else none
  | _ => none

/-- `re.search` of the id pattern: scan left to right, attempting a match at
every position preceded by a word boundary (`prevWord` is whether the
previous character was a word character). -/
def svbFind (prevWord : Bool) : List Char → Option (List Char)
  | [] => none
  | c :: rest =>
    match (if prevWord then none else svbTryAt (c :: rest)) with
    | some g => some g
    | none => svbFind (wordChar c) rest

/-- list_tab.py `_extract_svb_id`: first normalized `SVB_<TOKEN>` id found in
the given texts (empty texts skipped, no-match texts skipped). -/
def _extract_svb_id : List String → String
  | [] => ""
  | t :: rest =>
    if t = "" then _extract_svb_id rest
    else match svbFind false t.toList with
      | some g => "SVB_" ++ (g.map upChar).asString
      | none => _extract_svb_id rest

/-- list_tab.py `_std_svb_id`: normalize to `SVB_<TOKEN>` (uppercase) when
the pattern matches somewhere in `s`; otherwise return `s` unchanged. -/
def _std_svb_id (s : String) : String :=
  match svbFind false s.toList with
  | some g => "SVB_" ++ (g.map upChar).asString
  | none => s

/-! list_tab.py `render_list_tab`, best-id selection for a group
(lines 521-553). -/

/-- Collapse runs of underscores to a single underscore
(`re.sub(r'_+', '_', s)`). -/
def collapseU : List Char → List Char
  | [] => []
  | c :: rest =>
    if c = '_' && rest.head? = some '_' then collapseU rest
    else c :: collapseU rest

/-- Python `str.strip('_')`. -/
def stripU (l : List Char) : List Char :=
  ((l.dropWhile (· = '_')).reverse.dropWhile (· = '_')).reverse

/-- The cleaned name used to synthesize candidate ids:
`re.sub(r'[^a-zA-Z0-9_]', '_', nome.upper().strip())`, then collapse
underscore runs and strip outer underscores. -/
def cleanName (nome : String) : String :=
  let up := (trimL (nome.toList.map upChar))
  let repl := up.map (fun c => if isAsciiAlnum c || c = '_' then c else '_')
  (stripU (collapseU repl)).asString

/-- Candidate ids extracted from the link/sync/comment texts: for each text in
order, the first id-shaped token, skipping texts with none. -/
def extractedIds (texts : List String) : List String :=
  texts.filterMap (fun t =>
    let e := _extract_svb_id [t]
    if e = "" then none else some e)

/-- Candidate ids synthesized from the group's character name. -/
def nameIds (nome : String) : List String :=
  if nome ≠ "" then
    let nc := cleanName nome
    if nc ≠ "" then ["SVB_RIG_" ++ nc, "SVB_PER_" ++ nc, "SVB_" ++ nc]
    else []
  else []

/-- One step of the candidate-normalization loop: put the candidate through
`_std_svb_id` and append it if non-empty and not already present. -/
def normStep (acc : List String) (cid : String) : List String :=
  let nid := _std_svb_id cid
  if nid ≠ "" ∧ nid ∉ acc then acc ++ [nid] else acc

/-- The normalization pass over the candidate list. -/
def normalizeCandidates (cands : List String) : List String :=
  cands.foldl normStep []

/-- Best-id selection of the list-view aggregation: assemble candidates
(original group id when non-blank, then ids extracted from link/sync/comment
texts, then ids synthesized from the name), normalize and deduplicate them,
and take the first one; fall back to the original id when the list is
empty. -/
def bestId (pid : String) (links syncs : List String) (comments nome : String) : String :=
  let cands :=
    (if strTrim pid ≠ "" then [pid] else []) ++
    extractedIds (links ++ syncs ++ [comments]) ++
    nameIds nome
  match normalizeCandidates cands with
  | [] => pid
  | h :: _ => h

/-! list_tab.py `_status_kind`. -/

/-- Substring containment (Python `needle in hay`) on character lists. -/
def subOfL (pat : List Char) : List Char → Bool
  | [] => decide (pat = [])
  | c :: rest => pat.isPrefixOf (c :: rest) || subOfL pat rest

/-- Substring containment on strings. -/
def subStr (pat s : String) : Bool :=
  subOfL pat.toList s.toList

/-- The closed status taxonomy of the list tab. -/
inductive StatusKind where
  | done | review | wip | todo | other
deriving DecidableEq, Repr

/-- Review / analysis keyword test of `_status_kind`. -/
def reviewHit (ns : String) : Bool :=
  ["revisao", "analise", "pendentederevisao", "pendentedeanalise"].any (fun k => subStr k ns)

/-- In-production keyword test of `_status_kind`. -/
def wipHit (ns : String) : Bool :=
  ["emproducao", "emandamento", "producao", "progresso"].any (fun k => subStr k ns)

/-- Not-started keyword test of `_status_kind`. -/
def todoHit (ns : String) : Bool :=
  ["naoiniciado", "naoiniciada", "nao_iniciado"].any (fun k => subStr k ns)

/-- list_tab.py `_status_kind`: classify a free-text status into the closed
taxonomy by normalizing and testing the fixed keyword sets in priority
order; the first matching kind wins, and no match gives `other`. -/
def _status_kind (s : String) : StatusKind :=
  let ns := lt_norm s
  if subStr "concluido" ns then .done
  else if reviewHit ns then .review
  else if wipHit ns then .wip
  else if todoHit ns then .todo
  else .other

/-! app.py `find_image_for` and its image index.  The index is modelled as an
association list in insertion order (Python dict iteration order); keys are
`norm_key` of the image file stems, values are file paths. -/

/-- Python `dict` lookup on an association list (first binding wins, matching
insert-if-absent construction in `index_images`). -/
def lookupA : List (String × String) → String → Option String
  | [], _ => none
  | (k, v) :: rest, key => if k = key then some v else lookupA rest key

/-- `try_match` inside `find_image_for`: `img_idx.get(norm_key(cid), "")`. -/
def tryMatch (idx : List (String × String)) (cid : String) : String :=
  (lookupA idx (norm_key cid)).getD ""

/-- Early-return chaining: keep `a` when non-empty, else use `b`. -/
def orStr (a b : String) : String :=
  if a = "" then b else a

/-- Python string slicing `s[n:]` (by characters). -/
def dropChars (s : String) (n : Nat) : String :=
  (s.toList.drop n).asString

/-- Python `str.startswith` (character-level). -/
def strStarts (s pre : String) : Bool :=
  pre.toList.isPrefixOf s.toList

/-- Strategy 2 of `find_image_for`: RIG/PER/bare variations of an id that
carries the `SVB_` prefix. -/
def idVariantLookup (idx : List (String × String)) (fid : String) : String :=
  let up := strUpper fid
  if strStarts up "SVB_RIG_" then
    orStr (tryMatch idx ("SVB_PER_" ++ dropChars fid 8)) (tryMatch idx ("SVB_" ++ dropChars fid 8))
  else if strStarts up "SVB_PER_" then
    orStr (tryMatch idx ("SVB_RIG_" ++ dropChars fid 8)) (tryMatch idx ("SVB_" ++ dropChars fid 8))
  else
    orStr (tryMatch idx ("SVB_RIG_" ++ dropChars fid 4)) (tryMatch idx ("SVB_PER_" ++ dropChars fid 4))

/-- Strategies 1-2 of `find_image_for`: tried only when the stripped id is
non-empty and upper-cases to a `SVB_`-prefixed string; exact id lookup
first, then the RIG/PER/bare variations. -/
def tryIdStrategies (idx : List (String × String)) (fid : String) : String :=
  if fid ≠ "" && strStarts (strUpper fid) "SVB_" then
    orStr (tryMatch idx fid) (idVariantLookup idx fid)
  else ""

/-- Non-overlapping replacement of all occurrences of `pat` by the empty
string (Python `str.replace(pat, '')`); `skip` counts pattern characters
still to be consumed after a match. -/
def replAllAux (pat : List Char) (skip : Nat) : List Char → List Char
  | [] => []
  | c :: rest =>
    match skip with
    | k + 1 => replAllAux pat k rest
    | 0 =>
      if pat ≠ [] && pat.isPrefixOf (c :: rest) then replAllAux pat (pat.length - 1) rest
      else c :: replAllAux pat 0 rest

/-- Python `s.replace(pat, '')` on strings. -/
def replaceAllStr (pat s : String) : String :=
  (replAllAux pat.toList 0 s.toList).asString

/-- The per-entry key preprocessing of strategies 3-4:
`idx_key.replace('svb_rig_', '').replace('svb_per_', '').replace('svb_', '')`.
Note the patterns contain underscores while `norm_key`-built index keys
never do. -/
def stripCatKeys (k : String) : String :=
  replaceAllStr "svb_" (replaceAllStr "svb_per_" (replaceAllStr "svb_rig_" k))

/-- Connector-word alternatives of `re.sub(r'\b(de|da|do|e|com|para|em|na|no)\b', '', ·)`,
in the regex's alternation order. -/
def connAlts : List (List Char) :=
  [['d','e'], ['d','a'], ['d','o'], ['e'], ['c','o','m'], ['p','a','r','a'],
   ['e','m'], ['n','a'], ['n','o']]

/-- First connector alternative matching at the head of `l` with a word
boundary after it; returns the match length. -/
def connMatchAt (l : List Char) : Option Nat :=
  connAlts.findSome? (fun w =>
    if w.isPrefixOf l &&
       (match l.drop w.length with
        | [] => true
        | x :: _ => ! wordChar x) then some w.length else none)

/-- Scanner for the connector-removal `re.sub`: `prevWord` tracks whether the
previous character of the original string is a word character (for the
leading `\b`), `skip` counts matched characters still to drop. -/
def subConnAux (prevWord : Bool) (skip : Nat) : List Char → List Char
  | [] => []
  | c :: rest =>
    match skip with
    | k + 1 => subConnAux true k rest
    | 0 =>
      if !prevWord then
        match connMatchAt (c :: rest) with
        | some k => subConnAux true (k - 1) rest
        | none => c :: subConnAux (wordChar c) 0 rest
      else c :: subConnAux (wordChar c) 0 rest

/-- `re.sub(r'\b(de|da|do|e|com|para|em|na|no)\b', '', s)`. -/
def subConnectors (s : String) : String :=
  (subConnAux false 0 s.toList).asString

/-- `re.split(r'[_\s]+', s)`: split on runs of underscores/whitespace.  The
state is `some cur` while building a piece and `none` while consuming a
separator run. -/
def splitSepAux (st : Option (List Char)) : List Char → List (List Char)
  | [] => [(match st with | some cur => cur.reverse | none => [])]
  | c :: rest =>
    match st, (c = '_' || isSpaceChar c : Bool) with
    | some cur, true => cur.reverse :: splitSepAux none rest
    | some cur, false => splitSepAux (some (c :: cur)) rest
    | none, true => splitSepAux none rest
    | none, false => splitSepAux (some [c]) rest

/-- `re.split(r'[_\s]+', s)` on strings. -/
def splitSep (s : String) : List String :=
  (splitSepAux (some []) s.toList).map List.asString

/-- The hardcoded special-case alias table of `find_image_for`. -/
def svbSpecialCases : List (String × List String) :=
  [("tia_rebimboca_de_mochila", ["tia_rebimboca", "rebimboca", "rebi_mochila"]),
   ("tia_rebimboca", ["rebimboca", "rebi"]),
   ("pepe_pescador", ["pepe_pescador", "pepe"]),
   ("seu_tonho", ["seutonho"]),
   ("xico_apicultor", ["xico_apicultor", "xico"]),
   ("xico_rio", ["xico_rio", "xico"])]

/-- The significant words of the normalized name:
`[w for w in re.split(r'[_\s]+', name_norm) if len(w) >= 3]`. -/
def nameWords (nm : String) : List String :=
  (splitSep (norm_key nm)).filter (fun w => w.length ≥ 3)

/-- The candidate name variants of strategy 3, in construction order: the
normalized name, the connector-free normalization when different, the
special-case aliases, the first-two-significant-words form, and the first
significant word. -/
def nameVariants (nm : String) : List String :=
  let nameNorm := norm_key nm
  let v1 := [nameNorm]
  let nameCleanNorm := norm_key (subConnectors (strLower nm))
  let v2 := if nameCleanNorm ≠ nameNorm then v1 ++ [nameCleanNorm] else v1
  let v3 := v2 ++ ((svbSpecialCases.lookup nameCleanNorm).getD [])
  let ws := nameWords nm
  let v4 := match ws with
    | a :: b :: _ => v3 ++ [a ++ "_" ++ b]
    | _ => v3
  match ws with
  | a :: _ => v4 ++ [a]
  | [] => v4

/-- Strategy 3 (exact): first index entry whose preprocessed key equals a
variant, variants tried in order. -/
def scanExact (variants : List String) (idx : List (String × String)) : Option String :=
  variants.findSome? (fun v => idx.findSome? (fun kp =>
    if v = stripCatKeys kp.1 then some kp.2 else none))

/-- Strategy 4 (containment): first entry where the variant contains or is
contained in the preprocessed key, with the shorter side of length ≥ 4. -/
def scanContain (variants : List String) (idx : List (String × String)) : Option String :=
  variants.findSome? (fun v => idx.findSome? (fun kp =>
    let parts := stripCatKeys kp.1
    if (subStr v parts && v.length ≥ 4) || (subStr parts v && parts.length ≥ 4) then
      some kp.2
    else none))

/-- Strategy 5 (word fallback): for each significant word of length ≥ 4, the
first entry whose raw key contains it. -/
def scanParts (ws : List String) (idx : List (String × String)) : Option String :=
  ws.findSome? (fun part =>
    if part.length ≥ 4 then
      idx.findSome? (fun kp => if subStr part kp.1 then some kp.2 else none)
    else none)

/-- Strategies 3-5 of `find_image_for`, entered only when the stripped name
is non-empty. -/
def nameStrategies (idx : List (String × String)) (nm : String) : String :=
  if nm = "" then ""
  else
    match scanExact (nameVariants nm) idx with
    | some p => p
    | none =>
      match scanContain (nameVariants nm) idx with
      | some p => p
      | none =>
        match scanParts (nameWords nm) idx with
        | some p => p
        | none => ""

/-- app.py `find_image_for`: the full matching cascade over the image index,
returning `""` when no strategy matches. -/
def find_image_for (idx : List (String × String)) (file_id nm : String) : String :=
  orStr (tryIdStrategies idx (strTrim file_id)) (nameStrategies idx (strTrim nm))

/-! app.py `build_base_exp` / `detect_all_numeric_episodes` and
stats.py `_dedup_df` / `overall_stats`.  A table row carries the columns the
claims touch. -/

/-- One row of the reconciled table (the columns used by the claims). -/
structure Row where
  ep : String
  name : String
  file_id : String
  status_c : String
  status_r : String
deriving DecidableEq, Repr

/-- Insert into a sorted list (ascending). -/
def insSorted (n : Nat) : List Nat → List Nat
  | [] => [n]
  | m :: rest => if n ≤ m then n :: m :: rest else m :: insSorted n rest

/-- Sort ascending (model of Python `sorted`). -/
def sortNat (l : List Nat) : List Nat :=
  l.foldr insSorted []

/-- Keep the first occurrence of each number (Python `set` membership). -/
def dedupNatAux (seen : List Nat) : List Nat → List Nat
  | [] => []
  | n :: rest =>
    if n ∈ seen then dedupNatAux seen rest
    else n :: dedupNatAux (n :: seen) rest

/-- app.py `detect_all_numeric_episodes`: the sorted set of all integer
episodes parsed from the episode column across all rows. -/
def detect_all_numeric_episodes (df : List Row) : List Nat :=
  sortNat (dedupNatAux [] ((df.map (fun r => (parse_episode_field r.ep).filterMap EpVal.numOf)).flatten))

/-- The `_expand` closure of `build_base_exp`: when the universe is non-empty,
a parsed list containing the wildcard string is replaced by the whole
universe; otherwise the list is kept. -/
def expandTodos (allEps : List Nat) (lst : List EpVal) : List EpVal :=
  if allEps ≠ [] ∧ lst.any EpVal.isTodos then allEps.map EpVal.num else lst

/-- The exploded episode column before the integer filter: one `(row, value)`
pair per entry of the expanded per-row episode list (`df.explode`).  A row
whose list is empty explodes to a null entry, which the integer filter below
removes; modelling it by zero entries is filter-equivalent. -/
def explodeRows (df : List Row) (allEps : List Nat) : List (Row × EpVal) :=
  match df with
  | [] => []
  | r :: rs => (expandTodos allEps (parse_episode_field r.ep)).map (fun v => (r, v)) ++ explodeRows rs allEps

/-- One row of the cached pre-processed base: the original row, its single
integer episode, the normalized search columns and the vectorized
completion flags. -/
structure ExpRow where
  row : Row
  ep : Nat
  name_norm : String
  id_norm : String
  ok_c : Bool
  ok_r : Bool
  ok_both : Bool
deriving DecidableEq, Repr

/-- Construction of one exploded row of `build_base_exp`: the `__name_norm__`
and `__id_norm__` columns keep only alphanumeric characters of the
`unidecode`d lowercase text (same pipeline as `norm_key`), and the flags are
`is_concluido` of the two status columns. -/
def mkExpRow (r : Row) (n : Nat) : ExpRow :=
  { row := r
    ep := n
    name_norm := norm_key r.name
    id_norm := norm_key r.file_id
    ok_c := is_concluido r.status_c
    ok_r := is_concluido r.status_r
    ok_both := is_concluido r.status_c && is_concluido r.status_r }

/-- app.py `build_base_exp`: parse the episode column, expand the wildcard
against the known universe, explode to one row per episode value, and keep
only the rows whose episode value is an integer. -/
def build_base_exp (df : List Row) (allEps : List Nat) : List ExpRow :=
  (explodeRows df allEps).filterMap (fun rv =>
    match rv.2 with
    | .num n => some (mkExpRow rv.1 n)
    | .todos => none)

/-- The per-row integer episode contribution: expanded list restricted to its
integers. -/
def epRowsFor (allEps : List Nat) (r : Row) : List Nat :=
  (expandTodos allEps (parse_episode_field r.ep)).filterMap EpVal.numOf

/-- stats.py `_dedup_df` identity key: normalized id when non-empty, else
normalized name (`kid or knm`). -/
def identityKey (r : Row) : String :=
  let kid := stats_norm_key r.file_id
  if kid ≠ "" then kid else stats_norm_key r.name

/-- `df.drop_duplicates(subset='__UNIQ__')`: keep the first row bearing each
identity key. -/
def dedupKeep (seen : List String) : List Row → List Row
  | [] => []
  | r :: rs =>
    if identityKey r ∈ seen then dedupKeep seen rs
    else r :: dedupKeep (identityKey r :: seen) rs

/-- stats.py `_dedup_df` (with both the id and the name column present, as in
the `overall_stats` call sites). -/
def _dedup_df (df : List Row) : List Row :=
  dedupKeep [] df

/-- stats.py `overall_stats` counters (the derived percentage fields are
`count/total*100` floats and carry no extra information). -/
structure Overall where
  total : Nat
  concept_done : Nat
  rig_done : Nat
  both_done : Nat
deriving DecidableEq, Repr

/-- stats.py `overall_stats`: deduplicate by identity key, then count rows
and completion flags. -/
def overall_stats (df : List Row) : Overall :=
  let dfx := _dedup_df df
  { total := dfx.length
    concept_done := (dfx.filter (fun r => is_concluido r.status_c)).length
    rig_done := (dfx.filter (fun r => is_concluido r.status_r)).length
    both_done := (dfx.filter (fun r => is_concluido r.status_c && is_concluido r.status_r)).length }

/-! Claim theorems. -/

/-- The canonical header set named by claim C1. -/
def canonicalHeaders : List String :=
  ["Episódio", "Nome do perosnagem", "ID do Arquivo", "Responsável", "Respondável",
   "Status do Concept", "Status do Rig"]

/-- The full internal canonical column set. -/
def allCanonicalHeaders : List String :=
  [COL_EP, COL_NAME, COL_FILE_ID, COL_RIG_LINK, COL_SYNCSKETCH, COL_CONCEPT_LINK,
   COL_URG_CONCEPT, COL_STATUS_CONCEPT, COL_RESP_CONCEPT, COL_URG_RIG, COL_STATUS_RIG,
   COL_RESP_RIG, COL_COMMENTS, COL_DATE_CONCEPT, COL_DATE_RIG]

/-- C1, counterexample: applying the header-reconciliation step to the
canonical header set is not a no-op — the canonical Concept-responsible
header 'Responsável' is renamed to the Rig name 'Respondável'. -/
theorem C1_canonical_header_roundtrip_cex :
    _rename_headers_for_schema canonicalHeaders ≠ canonicalHeaders ∧
    _rename_headers_for_schema canonicalHeaders =
      ["Episódio", "Nome do perosnagem", "ID do Arquivo", "Respondável", "Respondável",
       "Status do Concept", "Status do Rig"] := by
  exact ⟨by decide, by decide⟩

/-- C1, amended: header reconciliation fixes every canonical column name
except 'Responsável' (the Concept-responsible column), which the unsuffixed
responsible rule remaps to the Rig-responsible name 'Respondável'. -/
theorem C1_canonical_header_rename :
    _rename_headers_for_schema allCanonicalHeaders =
      [COL_EP, COL_NAME, COL_FILE_ID, COL_RIG_LINK, COL_SYNCSKETCH, COL_CONCEPT_LINK,
       COL_URG_CONCEPT, COL_STATUS_CONCEPT, COL_RESP_RIG, COL_URG_RIG, COL_STATUS_RIG,
       COL_RESP_RIG, COL_COMMENTS, COL_DATE_CONCEPT, COL_DATE_RIG] := by
  decide

/-- C3, counterexample: a status differing from 'Concluído' only by trailing
punctuation has the same safe key but is not counted as done, so completion
is not safe-key equality. -/
theorem C3_is_concluido_safe_key_cex :
    is_concluido "Concluído." = false ∧ norm_key "Concluído." = norm_key "Concluído" := by
  exact ⟨by decide, by decide⟩

/-- C3, amended: `is_concluido` holds exactly when the normalized text
(lowercased, accent-stripped, trimmed only at the ends — punctuation and
internal spacing kept) equals the normalized text of 'Concluído'. -/
theorem C3_is_concluido_normalized_text (s : String) :
    is_concluido s = true ↔ _normalize_text s = _normalize_text "Concluído" := by
  rw [show _normalize_text "Concluído" = "concluido" from rfl]
  exact beq_iff_eq

/-- C4: the name-based exact-match step never strips the category
sub-prefixes (the replace patterns contain underscores while `norm_key`
index keys never do), so an index entry keyed by `norm_key("SVB_RIG_Edu")`
is invisible to it and the whole resolver returns `""` for the short name
'Edu' with an empty file id. -/
theorem C4_exact_name_match_fails :
    lookupA [("svbrigedu", "edu.png")] (norm_key ("SVB_RIG_" ++ "Edu")) = some "edu.png" ∧
    scanExact (nameVariants "Edu") [("svbrigedu", "edu.png")] = none ∧
    scanExact (nameVariants "Muriel") [("svbrigmuriel", "m.png")] = none ∧
    stripCatKeys "svbrigedu" = "svbrigedu" ∧
    find_image_for [("svbrigedu", "edu.png")] "" "Edu" = "" := by
  exact ⟨by decide, by decide, by decide, by decide, by decide⟩

/-- C6: `parse_episode_field` returns `[]` on blank input, the wildcard
sentinel when the stripped text lowercases to the keyword 'todos', and
otherwise every maximal digit run as an integer in order of appearance with
duplicates kept. -/
theorem C6_parse_episode_field_spec :
    (∀ s, strTrim s = "" → parse_episode_field s = []) ∧
    (∀ s, strTrim s ≠ "" → strLower (strTrim s) = "todos" →
       parse_episode_field s = [EpVal.todos]) ∧
    (∀ s, strTrim s ≠ "" → strLower (strTrim s) ≠ "todos" →
       parse_episode_field s = (digitRuns (strTrim s).toList).map EpVal.num) ∧
    parse_episode_field "101, 102 e 113" = [EpVal.num 101, EpVal.num 102, EpVal.num 113] ∧
    parse_episode_field "Todos" = [EpVal.todos] ∧
    parse_episode_field "" = [] ∧
    parse_episode_field "7 e 7" = [EpVal.num 7, EpVal.num 7] := by
  refine ⟨?_, ?_, ?_, by decide, by decide, by decide, by decide⟩
  · intro s h
    simp [parse_episode_field, h]
  · intro s hne h
    simp [parse_episode_field, h, hne]
  · intro s hne h
    simp [parse_episode_field, h, hne]

/-- C6, witness: the three conditional branches evaluated at concrete
inputs. -/
theorem C6_parse_episode_field_spec_witness :
    parse_episode_field "   " = [] ∧
    parse_episode_field "ToDos" = [EpVal.todos] ∧
    parse_episode_field "ep 12" = [EpVal.num 12] := by
  refine ⟨C6_parse_episode_field_spec.1 "   " (by decide),
          C6_parse_episode_field_spec.2.1 "ToDos" (by decide) (by decide), ?_⟩
  rw [C6_parse_episode_field_spec.2.2.1 "ep 12" (by decide) (by decide)]
  decide

/-- C8: the status classifier is total into the closed taxonomy and tests
the fixed keyword sets in priority order (done, then review, then wip, then
todo, else other); in particular 'Concluído' is done, 'Em Andamento' is wip
and unrecognized text is other. -/
theorem C8_status_kind_taxonomy :
    _status_kind "Concluído" = .done ∧
    _status_kind "Em Andamento" = .wip ∧
    _status_kind "qualquer outra coisa" = .other ∧
    (∀ s, subStr "concluido" (lt_norm s) = true → _status_kind s = .done) ∧
    (∀ s, subStr "concluido" (lt_norm s) = false → reviewHit (lt_norm s) = true →
       _status_kind s = .review) ∧
    (∀ s, subStr "concluido" (lt_norm s) = false → reviewHit (lt_norm s) = false →
       wipHit (lt_norm s) = true → _status_kind s = .wip) ∧
    (∀ s, subStr "concluido" (lt_norm s) = false → reviewHit (lt_norm s) = false →
       wipHit (lt_norm s) = false → todoHit (lt_norm s) = true → _status_kind s = .todo) ∧
    (∀ s, subStr "concluido" (lt_norm s) = false → reviewHit (lt_norm s) = false →
       wipHit (lt_norm s) = false → todoHit (lt_norm s) = false → _status_kind s = .other) := by
  refine ⟨by decide, by decide, by decide, ?_, ?_, ?_, ?_, ?_⟩ <;>
    · intro s
      intros
      simp [_status_kind, *]

/-- C8, witness: each keyword branch evaluated at a concrete status label. -/
theorem C8_status_kind_taxonomy_witness :
    _status_kind "foi concluido sim" = .done ∧
    _status_kind "Pendente de Revisão" = .review ∧
    _status_kind "Em produção" = .wip ∧
    _status_kind "não iniciado" = .todo ∧
    _status_kind "Bloqueado" = .other :=
  ⟨C8_status_kind_taxonomy.2.2.2.1 "foi concluido sim" (by decide),
   C8_status_kind_taxonomy.2.2.2.2.1 "Pendente de Revisão" (by decide) (by decide),
   C8_status_kind_taxonomy.2.2.2.2.2.1 "Em produção" (by decide) (by decide) (by decide),
   C8_status_kind_taxonomy.2.2.2.2.2.2.1 "não iniciado" (by decide) (by decide) (by decide) (by decide),
   C8_status_kind_taxonomy.2.2.2.2.2.2.2 "Bloqueado" (by decide) (by decide) (by decide) (by decide)⟩

/-- A string with non-blank strip is itself non-empty. -/
theorem strTrim_ne_imp_ne (s : String) (h : strTrim s ≠ "") : s ≠ "" := by
  intro hs
  subst hs
  exact h rfl

/-- `_std_svb_id` of a non-empty string is non-empty: either the pattern
matches and the result carries the `SVB_` prefix, or the input passes
through unchanged. -/
theorem std_svb_id_ne (s : String) (h : s ≠ "") : _std_svb_id s ≠ "" := by
  unfold _std_svb_id
  cases hf : svbFind false s.toList with
  | none => simpa using h
  | some g =>
    simp only []
    intro hc
    have hlen := congrArg String.length hc
    rw [String.length_append] at hlen
    rw [show ("SVB_" : String).length = 4 from rfl, show ("" : String).length = 0 from rfl] at hlen
    omega

/-- The normalization step never empties the accumulator. -/
theorem normStep_ne (acc : List String) (cid : String) (h : acc ≠ []) :
    normStep acc cid ≠ [] := by
  simp only [normStep]
  split
  · simp
  · exact h

/-- The normalization step appends at the end, so it preserves the head of a
non-empty accumulator. -/
theorem normStep_head (acc : List String) (cid : String) (h : acc ≠ []) :
    (normStep acc cid).head? = acc.head? := by
  simp only [normStep]
  split
  · cases acc with
    | nil => exact absurd rfl h
    | cons a t => rfl
  · rfl

/-- The whole normalization loop preserves the head of a non-empty
accumulator and never empties it. -/
theorem foldl_normStep_head (l : List String) (acc : List String) (h : acc ≠ []) :
    (l.foldl normStep acc).head? = acc.head? ∧ l.foldl normStep acc ≠ [] := by
  induction l generalizing acc with
  | nil => exact ⟨rfl, h⟩
  | cons cid rest ih =>
    have h1 := normStep_ne acc cid h
    obtain ⟨ha, hb⟩ := ih (normStep acc cid) h1
    exact ⟨ha.trans (normStep_head acc cid h), hb⟩

/-- When the first candidate normalizes to something non-empty, the
normalized candidate list starts with it. -/
theorem normalizeCandidates_cons_head (pid : String) (rest : List String)
    (h : _std_svb_id pid ≠ "") :
    ∃ t, normalizeCandidates (pid :: rest) = _std_svb_id pid :: t := by
  unfold normalizeCandidates
  rw [List.foldl_cons]
  have hstep : normStep [] pid = [_std_svb_id pid] := by
    unfold normStep
    rw [if_pos ⟨h, by simp⟩]
    rfl
  rw [hstep]
  obtain ⟨hh, hne⟩ := foldl_normStep_head rest [_std_svb_id pid] (by simp)
  cases hL : List.foldl normStep [_std_svb_id pid] rest with
  | nil => exact absurd hL hne
  | cons a t =>
    rw [hL] at hh
    simp only [List.head?_cons, Option.some.injEq] at hh
    exact ⟨t, by rw [hh]⟩

/-- C2, counterexample: the group id 'XYZ' does not match the id pattern and
the link carries the extractable token 'SVB_ABC', yet the aggregation
returns 'XYZ' — `_std_svb_id` passes non-matching candidates through, so
the original id wins regardless of the pattern. -/
theorem C2_best_id_extraction_cex :
    svbFind false "XYZ".toList = none ∧
    _extract_svb_id ["http://x/SVB_ABC/"] = "SVB_ABC" ∧
    bestId "XYZ" ["http://x/SVB_ABC/"] [] "" "Muriel" = "XYZ" ∧
    "XYZ" ≠ "SVB_ABC" := by
  exact ⟨by decide, by decide, by decide, by decide⟩

/-- C2, amended: candidates are tried in the stated order, but each is only
normalized by `_std_svb_id` (pattern matches rewritten to `SVB_<TOKEN>`,
everything else kept verbatim) and the first non-empty candidate wins, so a
non-blank original id always wins; tokens extracted from links are used
only when the original id is blank. -/
theorem C2_best_id_original_wins :
    (∀ pid links syncs comments nome, strTrim pid ≠ "" →
       bestId pid links syncs comments nome = _std_svb_id pid) ∧
    bestId "" ["http://x/SVB_ABC/"] [] "" "Muriel" = "SVB_ABC" := by
  refine ⟨?_, by decide⟩
  intro pid links syncs comments nome h
  have hstd : _std_svb_id pid ≠ "" := std_svb_id_ne pid (strTrim_ne_imp_ne pid h)
  simp only [bestId]
  rw [if_pos h]
  have hc : ([pid] ++ extractedIds (links ++ syncs ++ [comments])) ++ nameIds nome =
      pid :: (extractedIds (links ++ syncs ++ [comments]) ++ nameIds nome) := by
    simp
  rw [hc]
  obtain ⟨t, ht⟩ := normalizeCandidates_cons_head pid
    (extractedIds (links ++ syncs ++ [comments]) ++ nameIds nome) hstd
  rw [ht]

/-- C2, witness: the amended rule applied to a concrete non-blank group
id. -/
theorem C2_best_id_original_wins_witness :
    bestId "XYZ" ["http://x/SVB_ABC/"] [] "" "Muriel" = _std_svb_id "XYZ" :=
  C2_best_id_original_wins.1 "XYZ" ["http://x/SVB_ABC/"] [] "" "Muriel" (by decide)

/-- C5: the resolver is a total function of the index; with the entry keyed
'svbrigmuriel' present it returns that entry's path (the normalized-key
lookup of the verbatim id, regardless of the other entries), and on a fixed
index with no matching entry it returns the empty string. -/
theorem C5_find_image_for_total :
    (∀ idx p, lookupA idx "svbrigmuriel" = some p → p ≠ "" →
       find_image_for idx "SVB_RIG_MURIEL" "Muriel" = p) ∧
    find_image_for [("svbrigcuruca", "c.png")] "SVB_RIG_MURIEL" "Muriel" = "" := by
  refine ⟨?_, by decide⟩
  intro idx p h hp
  have hm : tryMatch idx "SVB_RIG_MURIEL" = p := by
    unfold tryMatch
    rw [show norm_key "SVB_RIG_MURIEL" = "svbrigmuriel" from rfl, h]
    rfl
  have ht : tryIdStrategies idx "SVB_RIG_MURIEL" = p := by
    unfold tryIdStrategies
    rw [if_pos (by decide), hm]
    unfold orStr
    rw [if_neg hp]
  unfold find_image_for
  rw [show strTrim "SVB_RIG_MURIEL" = "SVB_RIG_MURIEL" from rfl, ht]
  unfold orStr
  rw [if_neg hp]

/-- C5, witness: the general lookup statement at a concrete one-entry
index. -/
theorem C5_find_image_for_total_witness :
    find_image_for [("svbrigmuriel", "m.png")] "SVB_RIG_MURIEL" "Muriel" = "m.png" ∧
    find_image_for [("svbrigcuruca", "c.png")] "SVB_RIG_MURIEL" "Muriel" = "" :=
  ⟨C5_find_image_for_total.1 [("svbrigmuriel", "m.png")] "m.png" (by decide) (by decide),
   C5_find_image_for_total.2⟩

/-- A parsed episode list containing the wildcard is exactly the singleton
wildcard list: `parse_episode_field` returns either `[]`, `['Todos']`, or a
list of integers. -/
theorem parse_todos_shape (s : String)
    (h : (parse_episode_field s).any EpVal.isTodos = true) :
    parse_episode_field s = [EpVal.todos] := by
  simp only [parse_episode_field] at h ⊢
  by_cases h1 : strTrim s = ""
  · rw [if_pos h1] at h
    simp at h
  · rw [if_neg h1] at h ⊢
    by_cases h2 : strLower (strTrim s) = "todos"
    · rw [if_pos h2]
    · rw [if_neg h2] at h
      exfalso
      rw [List.any_eq_true] at h
      obtain ⟨v, hv, hn⟩ := h
      rw [List.mem_map] at hv
      obtain ⟨m, _, rfl⟩ := hv
      simp [EpVal.isTodos] at hn

/-- Filtering the integers back out of an all-integer episode list is the
identity. -/
theorem filterMap_numOf_map_num (l : List Nat) :
    (l.map EpVal.num).filterMap EpVal.numOf = l := by
  induction l with
  | nil => rfl
  | cons n rest ih => simp [EpVal.numOf, ih]

/-- C7: the wildcard expansion replaces any parsed list containing the
sentinel (even a mixed one) by the entire known episode universe computed
over the full record set, so a wildcard record contributes exactly one row
per universe episode; on the spec's example the wildcard record explodes to
episodes 1, 2 and 3. -/
theorem C7_wildcard_universe_expansion :
    (∀ allEps lst, allEps ≠ [] → lst.any EpVal.isTodos = true →
       expandTodos allEps lst = allEps.map EpVal.num) ∧
    (∀ df r, r ∈ df → (parse_episode_field r.ep).any EpVal.isTodos = true →
       epRowsFor (detect_all_numeric_episodes df) r = detect_all_numeric_episodes df) ∧
    epRowsFor
        (detect_all_numeric_episodes
          [⟨"1, 3", "A", "", "", ""⟩, ⟨"2", "B", "", "", ""⟩, ⟨"Todos", "C", "", "", ""⟩])
        ⟨"Todos", "C", "", "", ""⟩ = [1, 2, 3] := by
  refine ⟨?_, ?_, by decide⟩
  · intro allEps lst hA h
    unfold expandTodos
    rw [if_pos ⟨hA, h⟩]
  · intro df r _ h
    have hp := parse_todos_shape r.ep h
    unfold epRowsFor expandTodos
    rw [hp]
    by_cases hA : detect_all_numeric_episodes df = []
    · rw [hA]
      simp [EpVal.numOf]
    · rw [if_pos ⟨hA, by simp [EpVal.isTodos]⟩]
      exact filterMap_numOf_map_num _

/-- C7, witness: both wildcard statements applied at a concrete record
set. -/
theorem C7_wildcard_universe_expansion_witness :
    expandTodos [1, 2] [EpVal.todos] = [EpVal.num 1, EpVal.num 2] ∧
    epRowsFor
        (detect_all_numeric_episodes [⟨"1", "A", "", "", ""⟩, ⟨"Todos", "B", "", "", ""⟩])
        ⟨"Todos", "B", "", "", ""⟩ =
      detect_all_numeric_episodes [⟨"1", "A", "", "", ""⟩, ⟨"Todos", "B", "", "", ""⟩] :=
  ⟨C7_wildcard_universe_expansion.1 [1, 2] [EpVal.todos] (by decide) (by decide),
   C7_wildcard_universe_expansion.2.1
     [⟨"1", "A", "", "", ""⟩, ⟨"Todos", "B", "", "", ""⟩]
     ⟨"Todos", "B", "", "", ""⟩ (by decide) (by decide)⟩

/-- The integer filter applied to one record's exploded entries is that
record's integer contribution. -/
theorem explode_contrib (r : Row) (lst : List EpVal) :
    (lst.map (fun v => (r, v))).filterMap
        (fun rv : Row × EpVal =>
          match rv.2 with
          | .num n => some (mkExpRow rv.1 n)
          | .todos => none) =
      (lst.filterMap EpVal.numOf).map (mkExpRow r) := by
  induction lst with
  | nil => rfl
  | cons v rest ih =>
    cases v with
    | todos => simpa [EpVal.numOf] using ih
    | num n => simpa [EpVal.numOf] using ih

/-- Exploding a concatenation of record lists concatenates the exploded
entries. -/
theorem explodeRows_append (df1 df2 : List Row) (allEps : List Nat) :
    explodeRows (df1 ++ df2) allEps = explodeRows df1 allEps ++ explodeRows df2 allEps := by
  induction df1 with
  | nil => rfl
  | cons r rs ih => simp [explodeRows, ih]

/-- C10: every row of the exploded table carries one integer episode (it
descends from an integer entry of the exploded episode column), and a
record whose episode field yields no integers — blank text, digit-free
text, or the wildcard over an empty universe — contributes no row at all. -/
theorem C10_exploded_invariant :
    (∀ df allEps e, e ∈ build_base_exp df allEps →
       (e.row, EpVal.num e.ep) ∈ explodeRows df allEps) ∧
    (∀ allEps r,
       parse_episode_field r.ep = [] ∨
         (parse_episode_field r.ep = [EpVal.todos] ∧ allEps = []) →
       epRowsFor allEps r = []) ∧
    (∀ df1 df2 r allEps,
       parse_episode_field r.ep = [] ∨
         (parse_episode_field r.ep = [EpVal.todos] ∧ allEps = []) →
       build_base_exp (df1 ++ r :: df2) allEps =
         build_base_exp df1 allEps ++ build_base_exp df2 allEps) := by
  have hdrop : ∀ allEps r,
      parse_episode_field r.ep = [] ∨
        (parse_episode_field r.ep = [EpVal.todos] ∧ allEps = []) →
      epRowsFor allEps r = [] := by
    intro allEps r h
    unfold epRowsFor expandTodos
    rcases h with h | ⟨h, hA⟩
    · rw [h]
      simp [EpVal.isTodos]
    · rw [h, hA]
      simp [EpVal.numOf]
  refine ⟨?_, hdrop, ?_⟩
  · intro df allEps e he
    unfold build_base_exp at he
    rw [List.mem_filterMap] at he
    obtain ⟨rv, hrv, hf⟩ := he
    cases hv : rv.2 with
    | todos => rw [hv] at hf; simp at hf
    | num n =>
      rw [hv] at hf
      simp only [Option.some.injEq] at hf
      have hrow : e.row = rv.1 := by rw [← hf]; rfl
      have hep : e.ep = n := by rw [← hf]; rfl
      rw [hrow, hep, ← hv]
      exact hrv
  · intro df1 df2 r allEps h
    unfold build_base_exp
    rw [show df1 ++ r :: df2 = df1 ++ [r] ++ df2 by simp]
    rw [explodeRows_append, explodeRows_append, List.filterMap_append, List.filterMap_append]
    have hmid : explodeRows [r] allEps =
        (expandTodos allEps (parse_episode_field r.ep)).map (fun v => (r, v)) ++ [] := rfl
    rw [hmid, List.append_nil, explode_contrib]
    have hd := hdrop allEps r h
    unfold epRowsFor at hd
    rw [hd]
    simp

/-- C10, witness: a record with a digit-free episode field contributes no
row to the exploded table between its neighbours. -/
theorem C10_exploded_invariant_witness :
    epRowsFor [5] ⟨"sem numero", "N", "", "", ""⟩ = [] ∧
    build_base_exp
        [⟨"1", "A", "", "", ""⟩, ⟨"sem numero", "N", "", "", ""⟩, ⟨"2", "B", "", "", ""⟩] [1, 2] =
      build_base_exp [⟨"1", "A", "", "", ""⟩] [1, 2] ++
        build_base_exp [⟨"2", "B", "", "", ""⟩] [1, 2] :=
  ⟨C10_exploded_invariant.2.1 [5] ⟨"sem numero", "N", "", "", ""⟩ (Or.inl (by decide)),
   C10_exploded_invariant.2.2 [⟨"1", "A", "", "", ""⟩] [⟨"2", "B", "", "", ""⟩]
     ⟨"sem numero", "N", "", "", ""⟩ [1, 2] (Or.inl (by decide))⟩

/-- Counting lemma for the keep-first deduplication: the surviving rows are
as many as the distinct identity keys not yet seen. -/
theorem dedupKeep_length (l : List Row) (seen : List String) :
    (dedupKeep seen l).length =
      ((l.map identityKey).toFinset \ seen.toFinset).card := by
  induction l generalizing seen with
  | nil => simp [dedupKeep]
  | cons r rs ih =>
    by_cases hk : identityKey r ∈ seen
    · rw [dedupKeep, if_pos hk, ih]
      have hk' : identityKey r ∈ seen.toFinset := by simpa using hk
      congr 1
      ext x
      simp only [List.map_cons, List.toFinset_cons, Finset.mem_sdiff, Finset.mem_insert]
      constructor
      · rintro ⟨h1, h2⟩
        exact ⟨Or.inr h1, h2⟩
      · rintro ⟨h1 | h1, h2⟩
        · exact absurd (h1 ▸ hk') h2
        · exact ⟨h1, h2⟩
    · rw [dedupKeep, if_neg hk, List.length_cons, ih]
      have hk' : identityKey r ∉ seen.toFinset := by simpa using hk
      have e1 : ((r :: rs).map identityKey).toFinset \ seen.toFinset =
          insert (identityKey r) ((rs.map identityKey).toFinset \ seen.toFinset) := by
        ext x
        simp only [List.map_cons, List.toFinset_cons, Finset.mem_sdiff, Finset.mem_insert]
        constructor
        · rintro ⟨h1 | h1, h2⟩
          · exact Or.inl h1
          · exact Or.inr ⟨h1, h2⟩
        · rintro (h1 | ⟨h1, h2⟩)
          · exact ⟨Or.inl h1, h1 ▸ hk'⟩
          · exact ⟨Or.inr h1, h2⟩
      have e2 : (rs.map identityKey).toFinset \ (identityKey r :: seen).toFinset =
          ((rs.map identityKey).toFinset \ seen.toFinset).erase (identityKey r) := by
        ext x
        simp only [List.toFinset_cons, Finset.mem_sdiff, Finset.mem_insert, Finset.mem_erase]
        constructor
        · rintro ⟨h1, h2⟩
          push_neg at h2
          exact ⟨h2.1, h1, h2.2⟩
        · rintro ⟨h1, h2, h3⟩
          refine ⟨h2, ?_⟩
          simp only [not_or]
          exact ⟨h1, h3⟩
      rw [e1, e2]
      set S := (rs.map identityKey).toFinset \ seen.toFinset with hS
      by_cases hx : identityKey r ∈ S
      · rw [Finset.insert_eq_self.mpr hx, Finset.card_erase_of_mem hx]
        have : 0 < S.card := Finset.card_pos.mpr ⟨identityKey r, hx⟩
        omega
      · rw [Finset.erase_eq_of_not_mem hx, Finset.card_insert_of_not_mem hx]

/-- C9: `overall_stats` deduplicates by identity key before counting — the
reported total is the number of distinct identity keys, and of two rows
sharing a key only the first survives; two rows with the same non-empty
file id but different name casing count once. -/
theorem C9_overall_stats_dedup :
    (∀ df, (overall_stats df).total = ((df.map identityKey).toFinset).card) ∧
    (∀ r1 r2, identityKey r1 = identityKey r2 → _dedup_df [r1, r2] = [r1]) ∧
    (overall_stats
        [⟨"1", "ana", "SVB_X", "Concluído", ""⟩, ⟨"2", "ANA", "SVB_X", "", ""⟩]).total = 1 := by
  refine ⟨?_, ?_, by decide⟩
  · intro df
    have h := dedupKeep_length df []
    simpa [overall_stats, _dedup_df] using h
  · intro r1 r2 h
    simp [_dedup_df, dedupKeep, ← h]

/-- C9, witness: the dedup statements applied to two concrete rows with the
same file id and different name casing. -/
theorem C9_overall_stats_dedup_witness :
    (overall_stats [⟨"1", "ana", "SVB_X", "", ""⟩, ⟨"2", "ANA", "SVB_X", "", ""⟩]).total =
      (([⟨"1", "ana", "SVB_X", "", ""⟩, ⟨"2", "ANA", "SVB_X", "", ""⟩] :
          List Row).map identityKey).toFinset.card ∧
    _dedup_df [⟨"1", "ana", "SVB_X", "", ""⟩, ⟨"2", "ANA", "SVB_X", "", ""⟩] =
      [⟨"1", "ana", "SVB_X", "", ""⟩] :=
  ⟨C9_overall_stats_dedup.1 [⟨"1", "ana", "SVB_X", "", ""⟩, ⟨"2", "ANA", "SVB_X", "", ""⟩],
   C9_overall_stats_dedup.2.1 ⟨"1", "ana", "SVB_X", "", ""⟩ ⟨"2", "ANA", "SVB_X", "", ""⟩
     (by decide)⟩

end SVB
